import Mathlib

/-!
Verification of the krill login-session cache and ASPA object lifecycle.

The definitions below are a shallow embedding of the Rust sources
`src/daemon/auth/common/session.rs` and `src/daemon/ca/aspa.rs`.
Machine integers (`u64`) are modelled as `Nat`; the one place where a
`u64` subtraction can underflow is modelled by a partial subtraction
returning `Option`, so that `none` stands for the aborted computation.
The wall clock, which the Rust code reads through
`SystemTime::now().duration_since(UNIX_EPOCH)` (a fallible call), is
passed in explicitly as an `Option Nat` of seconds.
-/

namespace Krill

/-! ## Session status (`ClientSession::status`) -/

/-- The three session states of `SessionStatus` in `session.rs`. -/
inductive SessionStatus where
  | Active
  | NeedsRefresh
  | Expired
deriving DecidableEq

/-- `ClientSession` from `session.rs`.  `expires_in : Option<Duration>` is
modelled by its whole seconds (`as_secs` is all the code reads), and the
`HashMap<String, String>` of attributes by an association list. -/
structure ClientSession where
  start_time : Nat
  expires_in : Option Nat
  id : String
  attributes : List (String × String)
  secrets : List String
deriving DecidableEq

/-- Unsigned (`u64`) subtraction: `none` models the underflow abort that Rust
raises when `b > a` in `a - b`. -/
def checkedSub (a b : Nat) : Option Nat :=
  if b ≤ a then some (a - b) else none

/-- `ClientSession::status`, with the clock reading passed in explicitly.
`clock = none` models `duration_since(UNIX_EPOCH)` failing, in which case the
code logs a warning and falls through to `Active`.  A `none` result models
the `u64` underflow abort in `now.as_secs() - self.start_time`. -/
def ClientSession.statusAt (s : ClientSession) (clock : Option Nat) :
    Option SessionStatus :=
  match s.expires_in with
  | none => some .Active
  | some maxAge =>
    match clock with
    | none => some .Active
    | some now =>
      match checkedSub now s.start_time with
      | none => none
      | some curAge =>
        some (if curAge > maxAge then .Expired
              else if curAge > maxAge / 2 then .NeedsRefresh
              else .Active)

/-- The status classification exactly as the spec sentence behind C8 words it:
`Active` when the elapsed time is strictly less than half the lifetime,
`NeedsRefresh` when it lies between half and the full lifetime, `Expired`
when it exceeds the lifetime. -/
def claimedStatus (elapsed maxAge : Nat) : SessionStatus :=
  if 2 * elapsed < maxAge then .Active
  else if elapsed ≤ maxAge then .NeedsRefresh
  else .Expired

/-- The classification the code actually computes, phrased without the
`maxAge / 2` integer division: `Expired` past the lifetime, `NeedsRefresh`
when more than half the lifetime has elapsed (`2 * elapsed > maxAge`),
`Active` otherwise (`2 * elapsed ≤ maxAge`). -/
def amendedStatus (elapsed maxAge : Nat) : SessionStatus :=
  if maxAge < elapsed then .Expired
  else if maxAge < 2 * elapsed then .NeedsRefresh
  else .Active

/-! ## Association-list maps

The Rust code stores both the ASPA definitions and the ASPA objects in a
`HashMap`.  We model a hash map by an association list together with the
operations the code uses; the mutators keep keys unique, and theorems that
need uniqueness or the key-field coherence of the maps the daemon actually
builds take them as explicit hypotheses. -/

def lookupA {κ α : Type} [DecidableEq κ] : List (κ × α) → κ → Option α
  | [], _ => none
  | kv :: rest, k => if kv.1 = k then some kv.2 else lookupA rest k

/-- `HashMap::insert`: the new binding replaces any binding of the same key. -/
def insertA {κ α : Type} [DecidableEq κ] (m : List (κ × α)) (k : κ) (v : α) :
    List (κ × α) :=
  (k, v) :: m.filter (fun kv => decide (kv.1 ≠ k))

/-- `HashMap::remove`. -/
def removeA {κ α : Type} [DecidableEq κ] (m : List (κ × α)) (k : κ) :
    List (κ × α) :=
  m.filter (fun kv => decide (kv.1 ≠ k))

def keysA {κ α : Type} (m : List (κ × α)) : List κ := m.map Prod.fst

def valuesA {κ α : Type} (m : List (κ × α)) : List α := m.map Prod.snd

/-! ## ASPA definitions (`daemon/ca/aspa.rs`) -/

/-- An autonomous system number (`AspaCustomer` / provider ASN). -/
abbrev Asn := Nat

/-- Modelled from the spec: `AspaDefinition` lives in `commons::api`, which is
not among the sources; per the spec it is a customer ASN together with an
ordered list of provider ASNs, compared structurally with provider order
significant. -/
structure AspaDefinition where
  customer : Asn
  providers : List Asn
deriving DecidableEq

/-- Modelled from the spec: `AspaProvidersUpdate` (also in `commons::api`)
carries two disjoint sets of providers, those to add and those to remove. -/
structure AspaProvidersUpdate where
  added : List Asn
  removed : List Asn
deriving DecidableEq

/-- Modelled from the spec: `AspaDefinition::apply_update` applies the diff to
the provider list — the providers to remove are dropped and the providers to
add are appended. -/
def AspaDefinition.apply_update (d : AspaDefinition) (u : AspaProvidersUpdate) :
    AspaDefinition :=
  { d with
    providers := d.providers.filter (fun p => decide (p ∉ u.removed)) ++ u.added }

/-- `AspaDefinitions` from `aspa.rs`: the per-CA map from customer ASN to its
ASPA definition. -/
structure AspaDefinitions where
  attestations : List (Asn × AspaDefinition)
deriving DecidableEq

/-- `AspaDefinitions::add_or_replace`. -/
def AspaDefinitions.add_or_replace (ds : AspaDefinitions)
    (aspa_def : AspaDefinition) : AspaDefinitions :=
  ⟨insertA ds.attestations aspa_def.customer aspa_def⟩

/-- `AspaDefinitions::remove`. -/
def AspaDefinitions.remove (ds : AspaDefinitions) (customer : Asn) :
    AspaDefinitions :=
  ⟨removeA ds.attestations customer⟩

/-- `AspaDefinitions::apply_update`: if a definition exists, apply the diff to
it and drop it when its provider list becomes empty; otherwise apply the diff
to a fresh empty definition and insert the result (the source inserts it
without checking for emptiness). -/
def AspaDefinitions.apply_update (ds : AspaDefinitions) (customer : Asn)
    (update : AspaProvidersUpdate) : AspaDefinitions :=
  match lookupA ds.attestations customer with
  | some current =>
    let applied := current.apply_update update
    if applied.providers.isEmpty then ⟨removeA ds.attestations customer⟩
    else ⟨insertA ds.attestations customer applied⟩
  | none =>
    ⟨insertA ds.attestations customer
      (AspaDefinition.apply_update ⟨customer, []⟩ update)⟩

/-- `AspaDefinitions::get`. -/
def AspaDefinitions.get (ds : AspaDefinitions) (customer : Asn) :
    Option AspaDefinition :=
  lookupA ds.attestations customer

/-- `AspaDefinitions::has`. -/
def AspaDefinitions.has (ds : AspaDefinitions) (customer : Asn) : Bool :=
  (ds.get customer).isSome

/-- The invariant behind C2: every definition present in the set has at least
one provider. -/
def defsInvariant (ds : AspaDefinitions) : Prop :=
  ∀ d ∈ valuesA ds.attestations, d.providers ≠ []

/-! ## ASPA objects (`daemon/ca/aspa.rs`) -/

/-- The error type of the krill result paths the embedded code uses:
`Error::ApiInvalidCredentials` and `Error::Custom`, plus an opaque signer
failure for the ASPA paths. -/
inductive KrillError where
  | ApiInvalidCredentials : String → KrillError
  | Custom : String → KrillError
  | SignerFailure : KrillError
deriving DecidableEq

/-- `AspaInfo`, reduced to the two fields `update`/`renew` read: the
snapshotted definition (`AspaInfo::definition`) and the expiry instant
`validity.not_after()` (`AspaInfo::expires`). -/
structure AspaInfo where
  definition : AspaDefinition
  expires : Nat
deriving DecidableEq

/-- `AspaInfo::customer`: the customer of the snapshotted definition. -/
def AspaInfo.customer (info : AspaInfo) : Asn := info.definition.customer

/-- Modelled from the spec: `AspaObjectsUpdates` (from `daemon::ca`, not among
the sources) is a pair of lists, the new or regenerated objects and the
customers whose objects must be withdrawn; `add_updated` and `add_removed`
append. -/
structure AspaObjectsUpdates where
  updated : List AspaInfo
  removed : List Asn
deriving DecidableEq

/-- `AspaObjects`: the per-resource-class map from customer ASN to its
current ASPA object. -/
structure AspaObjects where
  objects : List (Asn × AspaInfo)
deriving DecidableEq

/-- `AspaObjects::make_aspa` / `make_aspa_object`, abstracted over the signer
and the configured validity: the signer either fails or yields the new
expiry instant, and the resulting `AspaInfo` snapshots exactly the requested
definition (`AspaInfo::new` stores the definition it is given). -/
def makeAspa (sign : AspaDefinition → Except KrillError Nat)
    (d : AspaDefinition) : Except KrillError AspaInfo :=
  match sign d with
  | .error e => .error e
  | .ok notAfter => .ok ⟨d, notAfter⟩

/-- The `need_to_issue` test of `AspaObjects::update`: issue when no object is
held for the customer, or when the held object's snapshotted definition
differs structurally from the current one. -/
def needToIssue (objects : List (Asn × AspaInfo)) (d : AspaDefinition) : Bool :=
  match lookupA objects d.customer with
  | some existing => decide (existing.definition ≠ d)
  | none => true

/-- The first loop of `AspaObjects::update`: walk the definitions, keep those
whose customer is covered by the resources, and (re)issue when needed; a
signer failure aborts the whole batch. -/
def updateIssueLoop (objects : List (Asn × AspaInfo)) (resources : List Asn)
    (sign : AspaDefinition → Except KrillError Nat) :
    List AspaDefinition → Except KrillError (List AspaInfo)
  | [] => .ok []
  | d :: rest =>
    if d.customer ∈ resources then
      if needToIssue objects d then
        match makeAspa sign d with
        | .error e => .error e
        | .ok info =>
          match updateIssueLoop objects resources sign rest with
          | .error e => .error e
          | .ok infos => .ok (info :: infos)
      else updateIssueLoop objects resources sign rest
    else updateIssueLoop objects resources sign rest

/-- `AspaObjects::update`.  The certified key is represented by the ASN set
of its incoming certificate (`resources`, the only part the code reads), and
the config and signer by `sign` as in `makeAspa`.  The second loop of the
source appends every held customer that is no longer defined or no longer
covered by the resources to `removed`. -/
def AspaObjects.update (objs : AspaObjects) (all_aspa_defs : AspaDefinitions)
    (resources : List Asn) (sign : AspaDefinition → Except KrillError Nat) :
    Except KrillError AspaObjectsUpdates :=
  match updateIssueLoop objs.objects resources sign
      (valuesA all_aspa_defs.attestations) with
  | .error e => .error e
  | .ok infos =>
    .ok ⟨infos,
      (keysA objs.objects).filter
        (fun c => !(all_aspa_defs.has c) || decide (c ∉ resources))⟩

/-- The renewal test of `AspaObjects::renew`: renew unconditionally when no
threshold is given, otherwise exactly when the object expires strictly
before the threshold. -/
def renewDue (threshold : Option Nat) (a : AspaInfo) : Bool :=
  match threshold with
  | some th => decide (a.expires < th)
  | none => true

/-- The loop of `AspaObjects::renew`. -/
def renewLoop (sign : AspaDefinition → Except KrillError Nat)
    (threshold : Option Nat) : List AspaInfo → Except KrillError (List AspaInfo)
  | [] => .ok []
  | a :: rest =>
    if renewDue threshold a then
      match makeAspa sign a.definition with
      | .error e => .error e
      | .ok info =>
        match renewLoop sign threshold rest with
        | .error e => .error e
        | .ok infos => .ok (info :: infos)
    else renewLoop sign threshold rest

/-- `AspaObjects::renew`: regenerate the due objects; no removals are ever
produced. -/
def AspaObjects.renew (objs : AspaObjects) (threshold : Option Nat)
    (sign : AspaDefinition → Except KrillError Nat) :
    Except KrillError AspaObjectsUpdates :=
  match renewLoop sign threshold (valuesA objs.objects) with
  | .error e => .error e
  | .ok infos => .ok ⟨infos, []⟩

/-! ## Serialization of session records

The Rust code serializes a `ClientSession` with `serde_json` (an external
crate, out of scope per the spec) and the spec only requires a canonical
self-describing serialization that `decode` recognizes.  Modelled from the
spec: a concrete injective byte encoding of the record with a decoder that
fails on anything that is not a valid serialization. -/

def encodeNat (n : Nat) : List Nat := List.replicate n 1 ++ [0]

def decodeNat : List Nat → Option (Nat × List Nat)
  | 0 :: rest => some (0, rest)
  | 1 :: rest =>
    match decodeNat rest with
    | some (n, r) => some (n + 1, r)
    | none => none
  | _ => none

def encodeListWith {α : Type} (f : α → List Nat) (xs : List α) : List Nat :=
  encodeNat xs.length ++ (xs.map f).flatten

def decodeItems {α : Type} (g : List Nat → Option (α × List Nat)) :
    Nat → List Nat → Option (List α × List Nat)
  | 0, r => some ([], r)
  | n + 1, r =>
    match g r with
    | some (a, r1) =>
      match decodeItems g n r1 with
      | some (as, r2) => some (a :: as, r2)
      | none => none
    | none => none

def decodeListWith {α : Type} (g : List Nat → Option (α × List Nat))
    (l : List Nat) : Option (List α × List Nat) :=
  match decodeNat l with
  | some (n, r) => decodeItems g n r
  | none => none

def encodeChar (c : Char) : List Nat := encodeNat c.toNat

def decodeChar (l : List Nat) : Option (Char × List Nat) :=
  match decodeNat l with
  | some (n, r) => some (Char.ofNat n, r)
  | none => none

def encodeString (s : String) : List Nat := encodeListWith encodeChar s.data

def decodeString (l : List Nat) : Option (String × List Nat) :=
  match decodeListWith decodeChar l with
  | some (cs, r) => some (String.mk cs, r)
  | none => none

def encodeOptNat : Option Nat → List Nat
  | none => encodeNat 0
  | some v => encodeNat 1 ++ encodeNat v

def decodeOptNat (l : List Nat) : Option (Option Nat × List Nat) :=
  match decodeNat l with
  | some (0, r) => some (none, r)
  | some (1, r) =>
    match decodeNat r with
    | some (v, r2) => some (some v, r2)
    | none => none
  | _ => none

def encodeAttr (p : String × String) : List Nat :=
  encodeString p.1 ++ encodeString p.2

def decodeAttr (l : List Nat) : Option ((String × String) × List Nat) :=
  match decodeString l with
  | some (a, r1) =>
    match decodeString r1 with
    | some (b, r2) => some ((a, b), r2)
    | none => none
  | none => none

/-- Modelled from the spec: the canonical serialization of a session record,
with the on-the-wire fields `start_time`, `expires_in`, `id`, `attributes`
and `secrets`. -/
def serializeSession (s : ClientSession) : List Nat :=
  encodeNat s.start_time ++ encodeOptNat s.expires_in ++ encodeString s.id ++
    encodeListWith encodeAttr s.attributes ++
    encodeListWith encodeString s.secrets

/-- Modelled from the spec: the deserializer; it fails on any byte sequence
that is not a full canonical serialization of a record. -/
def deserializeSession (l : List Nat) : Option ClientSession :=
  match decodeNat l with
  | some (st, r1) =>
    match decodeOptNat r1 with
    | some (ei, r2) =>
      match decodeString r2 with
      | some (sid, r3) =>
        match decodeListWith decodeAttr r3 with
        | some (attrs, r4) =>
          match decodeListWith decodeString r4 with
          | some (secs, r5) =>
            if r5.isEmpty then some ⟨st, ei, sid, attrs, secs⟩ else none
          | none => none
        | none => none
      | none => none
    | none => none
  | none => none

/-! ## Base64

Modelled from the spec: `base64::encode` / `base64::decode` come from an
external crate; the model is an injective printable encoding of byte
sequences (two characters per byte) whose decoder fails on malformed
strings, which is all the code relies on. -/

def byteChar (n : Nat) : Char := Char.ofNat (65 + n)

def b64encodeBytes (bytes : List Nat) : List Char :=
  (bytes.map (fun b => [byteChar (b / 16), byteChar (b % 16)])).flatten

def b64encode (bytes : List Nat) : String := String.mk (b64encodeBytes bytes)

def charVal (c : Char) : Option Nat :=
  if 65 ≤ c.toNat ∧ c.toNat ≤ 80 then some (c.toNat - 65) else none

def b64decodeChars : List Char → Option (List Nat)
  | [] => some []
  | c1 :: c2 :: rest =>
    match charVal c1, charVal c2, b64decodeChars rest with
    | some hi, some lo, some bs => some ((16 * hi + lo) :: bs)
    | _, _, _ => none
  | _ => none

def b64decode (s : String) : Option (List Nat) := b64decodeChars s.data

/-! ## The login session cache (`session.rs`)

The `RwLock<HashMap<Token, CachedSession>>` is modelled by an association
list keyed by the token string; the fallible wall clock is an explicit
`Option Nat` argument.  The encrypt and decrypt functions are fields, as in
the source (`encrypt_fn` / `decrypt_fn`), returning the ciphertext together
with the 16-byte tag, respectively the plaintext.  Lock acquisitions that
the source logs and swallows (`lookup_session`, `cache_session`, `remove`)
are modelled on their successful path; `sweep`, which propagates a poisoned
lock as an error, takes the acquisition outcome as an explicit argument. -/

def TAG_SIZE : Nat := 16

/-- `CachedSession` from `session.rs`. -/
structure CachedSession where
  evict_after : Nat
  session : ClientSession
deriving DecidableEq

/-- `LoginSessionCache` from `session.rs`. -/
structure LoginSessionCache where
  cache : List (String × CachedSession)
  encrypt_fn : List Nat → List Nat → Except KrillError (List Nat × List Nat)
  decrypt_fn : List Nat → List Nat → List Nat → Except KrillError (List Nat)
  ttl_secs : Nat

/-- `LoginSessionCache::lookup_session` (read lock granted). -/
def LoginSessionCache.lookup_session (c : LoginSessionCache)
    (token : String) : Option ClientSession :=
  match lookupA c.cache token with
  | some item => some item.session
  | none => none

/-- `LoginSessionCache::cache_session` (write lock granted): insert with
`evict_after = now + ttl`; a failed clock read only logs and skips. -/
def LoginSessionCache.cache_session (c : LoginSessionCache) (token : String)
    (session : ClientSession) (now : Option Nat) : LoginSessionCache :=
  match now with
  | some t =>
    { c with cache := insertA c.cache token ⟨t + c.ttl_secs, session⟩ }
  | none => c

/-- `LoginSessionCache::encode`: build the record with `start_time = now`,
serialize, encrypt, append the tag, base64, cache, return the token. -/
def LoginSessionCache.encode (c : LoginSessionCache) (sid : String)
    (attributes : List (String × String)) (secrets : List String)
    (key : List Nat) (expires_in : Option Nat) (now : Option Nat) :
    Except KrillError (String × LoginSessionCache) :=
  match now with
  | none => .error (.Custom "Unable to determine the current time")
  | some t =>
    let session : ClientSession := ⟨t, expires_in, sid, attributes, secrets⟩
    let unencrypted_bytes := serializeSession session
    match c.encrypt_fn key unencrypted_bytes with
    | .error e => .error e
    | .ok (encrypted_bytes, tag) =>
      let token := b64encode (encrypted_bytes ++ tag)
      .ok (token, c.cache_session token session (some t))

/-- `LoginSessionCache::decode`: fast path on cache hit; otherwise base64,
length check against the 16-byte tag, split, decrypt (whose error is
propagated as-is), deserialize (whose failure becomes `Error::Custom`),
cache and return. -/
def LoginSessionCache.decode (c : LoginSessionCache) (token : String)
    (key : List Nat) (now : Option Nat) :
    Except KrillError (ClientSession × LoginSessionCache) :=
  match c.lookup_session token with
  | some session => .ok (session, c)
  | none =>
    match b64decode token with
    | none => .error (.ApiInvalidCredentials "Invalid bearer token")
    | some bytes =>
      if bytes.length ≤ TAG_SIZE then
        .error (.ApiInvalidCredentials
          "Invalid bearer token: token is too short")
      else
        let encrypted_len := bytes.length - TAG_SIZE
        let encrypted_bytes := bytes.take encrypted_len
        let tag_bytes := bytes.drop encrypted_len
        match c.decrypt_fn key encrypted_bytes tag_bytes with
        | .error e => .error e
        | .ok unencrypted_bytes =>
          match deserializeSession unencrypted_bytes with
          | none => .error (.Custom "Unable to deserializing client session")
          | some session => .ok (session, c.cache_session token session now)

/-- `LoginSessionCache::remove` (write lock granted). -/
def LoginSessionCache.remove (c : LoginSessionCache) (token : String) :
    LoginSessionCache :=
  { c with cache := removeA c.cache token }

/-- `LoginSessionCache::sweep`: the source maps a poisoned write lock into
`Error::Custom` and propagates it with `?`, then reads the clock (also
propagated), then retains the entries with `evict_after > now`. -/
def LoginSessionCache.sweep (c : LoginSessionCache) (lockPoisoned : Bool)
    (now : Option Nat) : Except KrillError LoginSessionCache :=
  if lockPoisoned then .error (.Custom "Unable to purge session cache")
  else
    match now with
    | none => .error (.Custom "Unable to determine the current time")
    | some t =>
      .ok { c with
        cache := c.cache.filter (fun kv => decide (t < kv.2.evict_after)) }

/-- The cache the source's own unit test builds: identity cipher with an
all-zero tag, TTL of one second, empty cache. -/
def testCache : LoginSessionCache :=
  ⟨[], fun _ pt => .ok (pt, List.replicate 16 0), fun _ ct _ => .ok ct, 1⟩

/-- A token whose bytes decode and decrypt fine but do not deserialize. -/
def badToken : String := b64encode (List.replicate 17 5)

/-- C8, counterexample: with a lifetime of 2 seconds and exactly 1 second
elapsed (half the lifetime), the code returns `Active`, while the claim's
classification (`Active` only strictly below half) assigns `NeedsRefresh`. -/
theorem c8_counterexample :
    ClientSession.statusAt ⟨0, some 2, "", [], []⟩ (some 1) =
      some SessionStatus.Active ∧
    claimedStatus 1 2 = SessionStatus.NeedsRefresh := by
  constructor <;> rfl

/-- C8, amended: with no lifetime set, `status` is `Active` at every clock
reading; with a lifetime `m` set and the clock not earlier than
`start_time`, `status` is `Expired` when elapsed exceeds `m`, `NeedsRefresh`
when `2 * elapsed > m`, and `Active` when `2 * elapsed ≤ m` (so elapsed
exactly half the lifetime is still `Active`). -/
theorem c8_status_classification (s : ClientSession) (m now : Nat) :
    (s.expires_in = none → ∀ clock, s.statusAt clock = some SessionStatus.Active) ∧
    (s.expires_in = some m → s.start_time ≤ now →
      s.statusAt (some now) = some (amendedStatus (now - s.start_time) m)) := by
  constructor
  · intro h clock
    cases clock <;> simp [ClientSession.statusAt, h]
  · intro h hle
    simp only [ClientSession.statusAt, h, checkedSub, if_pos hle]
    set e := now - s.start_time with he
    have hdiv : m / 2 < e ↔ m < 2 * e := by
      constructor
      · intro hh
        have := (Nat.div_lt_iff_lt_mul (by norm_num : 0 < 2)).mp hh
        omega
      · intro hh
        by_contra hc
        have hc' : e ≤ m / 2 := Nat.le_of_not_lt hc
        have := (Nat.le_div_iff_mul_le (by norm_num : 0 < 2)).mp hc'
        omega
    by_cases h1 : m < e
    · simp [amendedStatus, h1]
    · by_cases h2 : m / 2 < e
      · have h2' : m < 2 * e := hdiv.mp h2
        simp [amendedStatus, h1, h2, h2']
      · have h2' : ¬ m < 2 * e := fun hc => h2 (hdiv.mpr hc)
        simp [amendedStatus, h1, h2, h2']

/-- C8 witness: the amended classification evaluated at a concrete session,
lifetime 10 and clock 9 (elapsed 9, more than half but not past the
lifetime). -/
theorem c8_status_classification_witness :
    ClientSession.statusAt ⟨0, some 10, "x", [], []⟩ (some 9) =
      some (amendedStatus 9 10) :=
  (c8_status_classification ⟨0, some 10, "x", [], []⟩ 10 9).2 rfl (by decide)

/-- C9, counterexample: for a lifetime of exactly 1 second, the code returns
`NeedsRefresh` at 1 second elapsed (1 > 1 is false, 1 > 1/2 = 0 is true),
so the `NeedsRefresh` branch is reachable, contrary to the claim. -/
theorem c9_counterexample :
    ClientSession.statusAt ⟨0, some 1, "", [], []⟩ (some 1) =
      some SessionStatus.NeedsRefresh := by
  rfl

/-- C9, amended: for a session whose lifetime is exactly 1 second,
`status` returns `NeedsRefresh` precisely when the clock reads
`start_time + 1`; the branch is reachable at exactly that instant (the
claim said it was unreachable). -/
theorem c9_needs_refresh_iff (s : ClientSession) (now : Nat)
    (h : s.expires_in = some 1) :
    s.statusAt (some now) = some SessionStatus.NeedsRefresh ↔
      now = s.start_time + 1 := by
  simp only [ClientSession.statusAt, h, checkedSub]
  by_cases hle : s.start_time ≤ now
  · rw [if_pos hle]
    constructor
    · intro hres
      by_cases h1 : now - s.start_time > 1
      · simp [h1] at hres
      · by_cases h2 : now - s.start_time > 1 / 2
        · omega
        · simp [h1, h2] at hres
    · intro hnow
      subst hnow
      have h1 : ¬ (s.start_time + 1 - s.start_time > 1) := by omega
      have h2 : s.start_time + 1 - s.start_time > 1 / 2 := by omega
      simp [h1, h2]
  · rw [if_neg hle]
    constructor
    · intro hres
      exact absurd hres (by simp)
    · omega

/-- C9 witness: the amended equivalence applied at a concrete session with
lifetime 1 and clock `start_time + 1 = 8`. -/
theorem c9_needs_refresh_iff_witness :
    ClientSession.statusAt ⟨7, some 1, "y", [], []⟩ (some 8) =
      some SessionStatus.NeedsRefresh :=
  (c9_needs_refresh_iff ⟨7, some 1, "y", [], []⟩ 8 rfl).mpr (by decide)

/-- C10: for a session with a lifetime set, `status` computes the age by an
unguarded `u64` subtraction, so it returns a status exactly when the clock
reading is at least `start_time`; an earlier clock reading underflows and no
status is produced. -/
theorem c10_status_total_iff (s : ClientSession) (m now : Nat)
    (h : s.expires_in = some m) :
    (s.statusAt (some now)).isSome ↔ s.start_time ≤ now := by
  simp only [ClientSession.statusAt, h, checkedSub]
  by_cases hle : s.start_time ≤ now
  · simp [hle]
  · simp [hle]

/-- C10 witness: at a concrete session starting at time 5 with a lifetime,
the status is defined at clock 5 (5 ≤ 5). -/
theorem c10_status_total_iff_witness :
    (ClientSession.statusAt ⟨5, some 3, "z", [], []⟩ (some 5)).isSome :=
  (c10_status_total_iff ⟨5, some 3, "z", [], []⟩ 3 5 rfl).mpr (by decide)

/-! ## Association-list lemmas -/

theorem lookupA_mem {κ α : Type} [DecidableEq κ] {k : κ} {v : α}
    {m : List (κ × α)} (h : lookupA m k = some v) : (k, v) ∈ m := by
  induction m with
  | nil => simp [lookupA] at h
  | cons kv rest ih =>
    rw [lookupA] at h
    split at h
    · rename_i heq
      obtain ⟨a, b⟩ := kv
      simp only at heq
      injection h with hv
      subst heq
      subst hv
      exact List.mem_cons_self _ _
    · exact List.mem_cons_of_mem _ (ih h)

theorem lookupA_isSome_of_mem {κ α : Type} [DecidableEq κ] {k : κ} {v : α}
    {m : List (κ × α)} (h : (k, v) ∈ m) : (lookupA m k).isSome := by
  induction m with
  | nil => simp at h
  | cons kv rest ih =>
    rw [lookupA]
    rcases List.mem_cons.mp h with heq | hmem
    · rw [if_pos (by rw [← heq])]
      rfl
    · split
      · rfl
      · exact ih hmem

theorem mem_keysA_iff {κ α : Type} [DecidableEq κ] {k : κ}
    {m : List (κ × α)} : k ∈ keysA m ↔ (lookupA m k).isSome := by
  constructor
  · intro h
    obtain ⟨kv, hkv, hfst⟩ := List.mem_map.mp h
    obtain ⟨a, b⟩ := kv
    subst hfst
    exact lookupA_isSome_of_mem hkv
  · intro h
    match hres : lookupA m k with
    | some v => exact List.mem_map.mpr ⟨(k, v), lookupA_mem hres, rfl⟩
    | none => rw [hres] at h; simp at h

theorem lookupA_eq_some_of_mem {κ α : Type} [DecidableEq κ] {k : κ} {v : α}
    {m : List (κ × α)} (hnd : (keysA m).Nodup) (h : (k, v) ∈ m) :
    lookupA m k = some v := by
  induction m with
  | nil => simp at h
  | cons kv rest ih =>
    obtain ⟨a, b⟩ := kv
    rw [keysA, List.map_cons, List.nodup_cons] at hnd
    rcases List.mem_cons.mp h with heq | hmem
    · injection heq.symm with h1 h2
      subst h1
      subst h2
      rw [lookupA, if_pos rfl]
    · rw [lookupA]
      split
      · rename_i heq
        simp only at heq
        subst heq
        exact absurd (List.mem_map.mpr ⟨(a, v), hmem, rfl⟩) hnd.1
      · exact ih hnd.2 hmem

theorem mem_valuesA {κ α : Type} {m : List (κ × α)} {v : α} :
    v ∈ valuesA m ↔ ∃ k, (k, v) ∈ m := by
  constructor
  · intro h
    obtain ⟨kv, hkv, hsnd⟩ := List.mem_map.mp h
    obtain ⟨a, b⟩ := kv
    subst hsnd
    exact ⟨a, hkv⟩
  · intro ⟨k, hk⟩
    exact List.mem_map.mpr ⟨(k, v), hk, rfl⟩

theorem mem_valuesA_insertA {κ α : Type} [DecidableEq κ] {m : List (κ × α)}
    {k : κ} {v w : α} (h : w ∈ valuesA (insertA m k v)) :
    w = v ∨ w ∈ valuesA m := by
  rw [insertA, valuesA, List.map_cons] at h
  rcases List.mem_cons.mp h with heq | hmem
  · exact Or.inl heq
  · obtain ⟨kv, hkv, hsnd⟩ := List.mem_map.mp hmem
    exact Or.inr (List.mem_map.mpr ⟨kv, List.mem_of_mem_filter hkv, hsnd⟩)

theorem mem_valuesA_removeA {κ α : Type} [DecidableEq κ] {m : List (κ × α)}
    {k : κ} {w : α} (h : w ∈ valuesA (removeA m k)) : w ∈ valuesA m := by
  obtain ⟨kv, hkv, hsnd⟩ := List.mem_map.mp h
  exact List.mem_map.mpr ⟨kv, List.mem_of_mem_filter hkv, hsnd⟩

theorem lookupA_insertA_self {κ α : Type} [DecidableEq κ]
    (m : List (κ × α)) (k : κ) (v : α) : lookupA (insertA m k v) k = some v := by
  rw [insertA, lookupA, if_pos rfl]

/-! ## Theorems for the ASPA definition set -/

/-- C2, counterexample: applying a removal-only update for a customer with no
existing definition inserts a definition with an empty provider list, so the
set does contain the customer afterwards, with no providers. -/
theorem c2_counterexample :
    (AspaDefinitions.apply_update ⟨[]⟩ 1 ⟨[], [2]⟩).has 1 = true ∧
    (AspaDefinitions.apply_update ⟨[]⟩ 1 ⟨[], [2]⟩).get 1 =
      some ⟨1, []⟩ := by
  decide

/-- C2, amended: the non-empty-providers invariant is preserved by
`add_or_replace` whenever the inserted definition itself has a provider, by
`remove` unconditionally, and by `apply_update` whenever a definition for the
customer already exists (an update that empties the provider list deletes the
entry); but when no definition exists, `apply_update` inserts the diff applied
to an empty definition unconditionally — even when the result has no
providers — so the set contains the customer afterwards in every case. -/
theorem c2_invariant (ds : AspaDefinitions) (d : AspaDefinition) (c : Asn)
    (u : AspaProvidersUpdate) :
    (defsInvariant ds → d.providers ≠ [] →
      defsInvariant (ds.add_or_replace d)) ∧
    (defsInvariant ds → defsInvariant (ds.remove c)) ∧
    (defsInvariant ds → ds.has c = true →
      defsInvariant (ds.apply_update c u)) ∧
    (ds.has c = false →
      (ds.apply_update c u).has c = true ∧
      (ds.apply_update c u).get c =
        some (AspaDefinition.apply_update ⟨c, []⟩ u)) := by
  refine ⟨?_, ?_, ?_, ?_⟩
  · intro hinv hne w hw
    rcases mem_valuesA_insertA hw with rfl | hmem
    · exact hne
    · exact hinv w hmem
  · intro hinv w hw
    exact hinv w (mem_valuesA_removeA hw)
  · intro hinv hc w hw
    rw [AspaDefinitions.has, AspaDefinitions.get] at hc
    match hcur : lookupA ds.attestations c with
    | none => rw [hcur] at hc; simp at hc
    | some current =>
      rw [AspaDefinitions.apply_update, hcur] at hw
      simp only at hw
      split at hw
      · exact hinv w (mem_valuesA_removeA hw)
      · rename_i hne
        rcases mem_valuesA_insertA hw with rfl | hmem
        · intro hnil
          rw [hnil] at hne
          exact hne rfl
        · exact hinv w hmem
  · intro hc
    rw [AspaDefinitions.has, AspaDefinitions.get] at hc
    match hcur : lookupA ds.attestations c with
    | some current => rw [hcur] at hc; simp at hc
    | none =>
      rw [AspaDefinitions.apply_update, hcur]
      constructor
      · rw [AspaDefinitions.has, AspaDefinitions.get]
        simp only
        rw [lookupA_insertA_self]
        rfl
      · rw [AspaDefinitions.get]
        simp only
        rw [lookupA_insertA_self]

/-- C2 witness: the amended preservation statement applied to the concrete
set holding one definition for customer 1 with provider 9, inserting the
definition with customer 2 and provider 5. -/
theorem c2_invariant_witness :
    defsInvariant (AspaDefinitions.add_or_replace ⟨[(1, ⟨1, [9]⟩)]⟩ ⟨2, [5]⟩) := by
  refine (c2_invariant ⟨[(1, ⟨1, [9]⟩)]⟩ ⟨2, [5]⟩ 1 ⟨[], []⟩).1 ?_ ?_
  · intro w hw
    simp [valuesA] at hw
    subst hw
    simp
  · simp

/-! ## Theorems for the ASPA object set -/

theorem makeAspa_definition {sign : AspaDefinition → Except KrillError Nat}
    {d : AspaDefinition} {info : AspaInfo} (h : makeAspa sign d = .ok info) :
    info.definition = d := by
  rw [makeAspa] at h
  match hs : sign d with
  | .error e => rw [hs] at h; exact absurd h (by simp)
  | .ok n =>
    rw [hs] at h
    injection h with h
    subst h
    rfl

theorem updateIssueLoop_ok_map (objects : List (Asn × AspaInfo))
    (resources : List Asn) (sign : AspaDefinition → Except KrillError Nat) :
    ∀ (l : List AspaDefinition) (infos : List AspaInfo),
      updateIssueLoop objects resources sign l = .ok infos →
      infos.map AspaInfo.definition =
        l.filter
          (fun d => decide (d.customer ∈ resources) && needToIssue objects d) := by
  intro l
  induction l with
  | nil =>
    intro infos h
    rw [updateIssueLoop] at h
    injection h with h
    subst h
    rfl
  | cons d rest ih =>
    intro infos h
    rw [updateIssueLoop] at h
    rw [List.filter_cons]
    by_cases hres : d.customer ∈ resources
    · rw [if_pos hres] at h
      by_cases hni : needToIssue objects d
      · rw [if_pos hni] at h
        match hma : makeAspa sign d with
        | .error e => rw [hma] at h; exact absurd h (by simp)
        | .ok info =>
          rw [hma] at h
          match hrest : updateIssueLoop objects resources sign rest with
          | .error e => rw [hrest] at h; exact absurd h (by simp)
          | .ok infos' =>
            rw [hrest] at h
            injection h with h
            subst h
            rw [if_pos (by simp [hres, hni])]
            rw [List.map_cons, ih infos' hrest, makeAspa_definition hma]
      · rw [if_neg hni] at h
        rw [if_neg (by simp [hres, hni])]
        exact ih infos h
    · rw [if_neg hres] at h
      rw [if_neg (by simp [hres])]
      exact ih infos h

/-- C5: an entry for customer `c` is in the `updated` list of a successful
`update` exactly when `defs` holds a definition for `c`, the certified key's
resources contain `c`, and either no object for `c` is currently held or the
held object's snapshotted definition differs (structurally, so provider
order counts) from the current definition. -/
theorem c5_update_updated_iff (objs : AspaObjects) (defs : AspaDefinitions)
    (resources : List Asn) (sign : AspaDefinition → Except KrillError Nat)
    (batch : AspaObjectsUpdates) (c : Asn)
    (hnd : (keysA defs.attestations).Nodup)
    (hwf : ∀ kv ∈ defs.attestations, kv.2.customer = kv.1)
    (h : objs.update defs resources sign = .ok batch) :
    (∃ info ∈ batch.updated, info.customer = c) ↔
      ∃ d, defs.get c = some d ∧ c ∈ resources ∧
        ∀ existing, lookupA objs.objects c = some existing →
          existing.definition ≠ d := by
  rw [AspaObjects.update] at h
  match hloop : updateIssueLoop objs.objects resources sign
      (valuesA defs.attestations) with
  | .error e => rw [hloop] at h; exact absurd h (by simp)
  | .ok infos =>
    rw [hloop] at h
    injection h with h
    subst h
    simp only
    have hmap := updateIssueLoop_ok_map objs.objects resources sign
      (valuesA defs.attestations) infos hloop
    constructor
    · intro ⟨info, hinfo, hcust⟩
      have hdefmem : info.definition ∈ infos.map AspaInfo.definition :=
        List.mem_map.mpr ⟨info, hinfo, rfl⟩
      rw [hmap] at hdefmem
      obtain ⟨hval, hcond⟩ := List.mem_filter.mp hdefmem
      obtain ⟨k, hk⟩ := mem_valuesA.mp hval
      have hkc : k = c := by
        have := hwf (k, info.definition) hk
        simp only at this
        rw [← hcust, AspaInfo.customer, this]
      subst hkc
      refine ⟨info.definition, lookupA_eq_some_of_mem hnd hk, ?_, ?_⟩
      · have := (Bool.and_eq_true _ _).mp hcond
        have hres := of_decide_eq_true this.1
        rw [AspaInfo.customer] at hcust
        rwa [hcust] at hres
      · intro existing hex hne
        have := (Bool.and_eq_true _ _).mp hcond
        rw [needToIssue] at this
        rw [AspaInfo.customer] at hcust
        rw [hcust] at this
        rw [hex] at this
        have := of_decide_eq_true this.2
        exact this hne
    · intro ⟨d, hget, hres, hne⟩
      rw [AspaDefinitions.get] at hget
      have hmem : (c, d) ∈ defs.attestations := lookupA_mem hget
      have hdc : d.customer = c := hwf (c, d) hmem
      have hval : d ∈ valuesA defs.attestations := mem_valuesA.mpr ⟨c, hmem⟩
      have hcond :
          (decide (d.customer ∈ resources) && needToIssue objs.objects d)
            = true := by
        rw [Bool.and_eq_true]
        refine ⟨decide_eq_true (by rwa [hdc]), ?_⟩
        rw [needToIssue, hdc]
        match hex : lookupA objs.objects c with
        | none => rfl
        | some existing => exact decide_eq_true (hne existing hex)
      have hdefmem : d ∈ infos.map AspaInfo.definition := by
        rw [hmap]
        exact List.mem_filter.mpr ⟨hval, hcond⟩
      obtain ⟨info, hinfo, hdef⟩ := List.mem_map.mp hdefmem
      exact ⟨info, hinfo, by rw [AspaInfo.customer, hdef, hdc]⟩

/-- C5 witness: the equivalence at the empty object set, a single definition
for customer 64500 covered by the resources, so `update` reissues it. -/
theorem c5_update_updated_iff_witness :
    ∃ info ∈ (AspaObjectsUpdates.mk [⟨⟨64500, [64501]⟩, 7⟩] []).updated,
      info.customer = 64500 :=
  (c5_update_updated_iff ⟨[]⟩ ⟨[(64500, ⟨64500, [64501]⟩)]⟩ [64500]
      (fun _ => .ok 7) ⟨[⟨⟨64500, [64501]⟩, 7⟩], []⟩ 64500
      (by decide) (by decide) rfl).mpr
    ⟨⟨64500, [64501]⟩, rfl, by decide, by intro e he; simp [lookupA] at he⟩

/-- C6: in a successful `update` batch, no customer appears both in
`updated` and in `removed`; every customer in `removed` is currently held
and is either undefined in `defs` or outside the certified key's resources;
and any held customer meeting that condition appears in `removed` exactly
once. -/
theorem c6_update_removed (objs : AspaObjects) (defs : AspaDefinitions)
    (resources : List Asn) (sign : AspaDefinition → Except KrillError Nat)
    (batch : AspaObjectsUpdates)
    (hwf : ∀ kv ∈ defs.attestations, kv.2.customer = kv.1)
    (hndObj : (keysA objs.objects).Nodup)
    (h : objs.update defs resources sign = .ok batch) :
    (∀ c, (∃ info ∈ batch.updated, info.customer = c) → c ∉ batch.removed) ∧
    (∀ c ∈ batch.removed, (lookupA objs.objects c).isSome ∧
      (defs.has c = false ∨ c ∉ resources)) ∧
    (∀ c ∈ keysA objs.objects, (defs.has c = false ∨ c ∉ resources) →
      batch.removed.count c = 1) := by
  rw [AspaObjects.update] at h
  match hloop : updateIssueLoop objs.objects resources sign
      (valuesA defs.attestations) with
  | .error e => rw [hloop] at h; exact absurd h (by simp)
  | .ok infos =>
    rw [hloop] at h
    injection h with h
    subst h
    simp only
    have hmap := updateIssueLoop_ok_map objs.objects resources sign
      (valuesA defs.attestations) infos hloop
    refine ⟨?_, ?_, ?_⟩
    · intro c ⟨info, hinfo, hcust⟩ hcmem
      obtain ⟨hkey, hcond⟩ := List.mem_filter.mp hcmem
      have hdefmem : info.definition ∈ infos.map AspaInfo.definition :=
        List.mem_map.mpr ⟨info, hinfo, rfl⟩
      rw [hmap] at hdefmem
      obtain ⟨hval, hcond'⟩ := List.mem_filter.mp hdefmem
      obtain ⟨k, hk⟩ := mem_valuesA.mp hval
      have hkc : k = c := by
        have := hwf (k, info.definition) hk
        simp only at this
        rw [← hcust, AspaInfo.customer, this]
      subst hkc
      have hhas : defs.has k = true := by
        rw [AspaDefinitions.has, AspaDefinitions.get]
        exact lookupA_isSome_of_mem hk
      have hres : k ∈ resources := by
        have := (Bool.and_eq_true _ _).mp hcond'
        have h1 := of_decide_eq_true this.1
        rw [AspaInfo.customer] at hcust
        rwa [hcust] at h1
      rw [hhas] at hcond
      simp at hcond
      exact absurd hres hcond
    · intro c hc
      obtain ⟨hkey, hcond⟩ := List.mem_filter.mp hc
      refine ⟨mem_keysA_iff.mp hkey, ?_⟩
      rcases Bool.or_eq_true _ _ |>.mp hcond with h1 | h2
      · left
        rw [Bool.not_eq_true'] at h1
        exact h1
      · right
        exact of_decide_eq_true h2
    · intro c hckey hcond
      have hcmem : c ∈ (keysA objs.objects).filter
          (fun c => !(defs.has c) || decide (c ∉ resources)) := by
        refine List.mem_filter.mpr ⟨hckey, ?_⟩
        rcases hcond with h1 | h2
        · simp [h1]
        · simp [h2]
      exact List.count_eq_one_of_mem (hndObj.filter _) hcmem

/-- C6 witness: with one held object for customer 64500, no definitions and
no resources, the batch removes 64500 exactly once. -/
theorem c6_update_removed_witness :
    (AspaObjectsUpdates.mk [] [64500]).removed.count 64500 = 1 :=
  (c6_update_removed ⟨[(64500, ⟨⟨64500, [1]⟩, 5⟩)]⟩ ⟨[]⟩ []
      (fun _ => .ok 7) ⟨[], [64500]⟩ (by simp) (by decide) rfl).2.2
    64500 (by decide) (Or.inl (by decide))

theorem renewLoop_ok_map (sign : AspaDefinition → Except KrillError Nat)
    (threshold : Option Nat) :
    ∀ (l : List AspaInfo) (infos : List AspaInfo),
      renewLoop sign threshold l = .ok infos →
      infos.map AspaInfo.definition =
        (l.filter (renewDue threshold)).map AspaInfo.definition := by
  intro l
  induction l with
  | nil =>
    intro infos h
    rw [renewLoop] at h
    injection h with h
    subst h
    rfl
  | cons a rest ih =>
    intro infos h
    rw [renewLoop] at h
    rw [List.filter_cons]
    by_cases hdue : renewDue threshold a
    · rw [if_pos hdue] at h
      match hma : makeAspa sign a.definition with
      | .error e => rw [hma] at h; exact absurd h (by simp)
      | .ok info =>
        rw [hma] at h
        match hrest : renewLoop sign threshold rest with
        | .error e => rw [hrest] at h; exact absurd h (by simp)
        | .ok infos' =>
          rw [hrest] at h
          injection h with h
          subst h
          rw [if_pos hdue]
          rw [List.map_cons, List.map_cons, ih infos' hrest,
            makeAspa_definition hma]
    · rw [if_neg hdue] at h
      rw [if_neg hdue]
      exact ih infos h

/-- C7: a successful `renew` batch never removes anything, and it regenerates
a currently-held object exactly when the threshold is unset or the object's
`not_after` is strictly earlier than the threshold: the definitions of the
`updated` entries are precisely those of the held objects passing that test,
in order. -/
theorem c7_renew_characterization (objs : AspaObjects) (threshold : Option Nat)
    (sign : AspaDefinition → Except KrillError Nat) (batch : AspaObjectsUpdates)
    (h : objs.renew threshold sign = .ok batch) :
    batch.removed = [] ∧
    batch.updated.map AspaInfo.definition =
      ((valuesA objs.objects).filter
        (fun a => match threshold with
          | some th => decide (a.expires < th)
          | none => true)).map AspaInfo.definition := by
  rw [AspaObjects.renew] at h
  match hloop : renewLoop sign threshold (valuesA objs.objects) with
  | .error e => rw [hloop] at h; exact absurd h (by simp)
  | .ok infos =>
    rw [hloop] at h
    injection h with h
    subst h
    refine ⟨rfl, ?_⟩
    show List.map AspaInfo.definition infos = _
    rw [renewLoop_ok_map sign threshold (valuesA objs.objects) infos hloop]
    rfl

/-- C7 witness: with a threshold of 10 and two held objects expiring at 5 and
20, `renew` regenerates exactly the one expiring at 5 and removes nothing. -/
theorem c7_renew_characterization_witness :
    (AspaObjectsUpdates.mk [⟨⟨1, [2]⟩, 9⟩] []).removed = [] ∧
    (AspaObjectsUpdates.mk [⟨⟨1, [2]⟩, 9⟩] []).updated.map
        AspaInfo.definition =
      ((valuesA [((1 : Asn), AspaInfo.mk ⟨1, [2]⟩ 5),
        ((3 : Asn), AspaInfo.mk ⟨3, [4]⟩ 20)]).filter
        (fun a => match (some 10 : Option Nat) with
          | some th => decide (a.expires < th)
          | none => true)).map AspaInfo.definition :=
  c7_renew_characterization ⟨[(1, ⟨⟨1, [2]⟩, 5⟩), (3, ⟨⟨3, [4]⟩, 20⟩)]⟩
    (some 10) (fun _ => .ok 9) ⟨[⟨⟨1, [2]⟩, 9⟩], []⟩ rfl

/-! ## Codec round-trip lemmas -/

theorem decodeNat_encodeNat (n : Nat) (r : List Nat) :
    decodeNat (encodeNat n ++ r) = some (n, r) := by
  induction n with
  | zero => rfl
  | succ k ih =>
    have hrep : encodeNat (k + 1) ++ r = 1 :: (encodeNat k ++ r) := by
      simp [encodeNat, List.replicate_succ]
    rw [hrep]
    simp [decodeNat, ih]

theorem decodeItems_flatten {α : Type} {g : List Nat → Option (α × List Nat)}
    {f : α → List Nat} (hg : ∀ a r, g (f a ++ r) = some (a, r)) :
    ∀ (xs : List α) (r : List Nat),
      decodeItems g xs.length ((xs.map f).flatten ++ r) = some (xs, r) := by
  intro xs
  induction xs with
  | nil => intro r; rfl
  | cons a rest ih =>
    intro r
    have hrep : (((a :: rest).map f).flatten ++ r) =
        f a ++ ((rest.map f).flatten ++ r) := by
      simp [List.append_assoc]
    rw [List.length_cons, hrep]
    simp [decodeItems, hg, ih]

theorem decodeListWith_encode {α : Type} {g : List Nat → Option (α × List Nat)}
    {f : α → List Nat} (hg : ∀ a r, g (f a ++ r) = some (a, r))
    (xs : List α) (r : List Nat) :
    decodeListWith g (encodeListWith f xs ++ r) = some (xs, r) := by
  rw [encodeListWith, List.append_assoc]
  simp [decodeListWith, decodeNat_encodeNat, decodeItems_flatten hg]

theorem decodeChar_encodeChar (c : Char) (r : List Nat) :
    decodeChar (encodeChar c ++ r) = some (c, r) := by
  simp [decodeChar, encodeChar, decodeNat_encodeNat, Char.ofNat_toNat]

theorem decodeString_encodeString (s : String) (r : List Nat) :
    decodeString (encodeString s ++ r) = some (s, r) := by
  obtain ⟨cs⟩ := s
  simp [decodeString, encodeString, decodeListWith_encode decodeChar_encodeChar]

theorem decodeOptNat_encodeOptNat (o : Option Nat) (r : List Nat) :
    decodeOptNat (encodeOptNat o ++ r) = some (o, r) := by
  cases o with
  | none => simp [decodeOptNat, encodeOptNat, decodeNat_encodeNat]
  | some v =>
    simp [decodeOptNat, encodeOptNat, List.append_assoc, decodeNat_encodeNat]

theorem decodeAttr_encodeAttr (p : String × String) (r : List Nat) :
    decodeAttr (encodeAttr p ++ r) = some (p, r) := by
  obtain ⟨a, b⟩ := p
  simp [decodeAttr, encodeAttr, List.append_assoc, decodeString_encodeString]

theorem deserializeSession_serializeSession (s : ClientSession) :
    deserializeSession (serializeSession s) = some s := by
  obtain ⟨st, ei, sid, attrs, secs⟩ := s
  have hrep : serializeSession ⟨st, ei, sid, attrs, secs⟩ =
      encodeNat st ++ (encodeOptNat ei ++ (encodeString sid ++
        (encodeListWith encodeAttr attrs ++
          (encodeListWith encodeString secs ++ [])))) := by
    simp [serializeSession, List.append_assoc]
  rw [hrep]
  have hlast : decodeListWith decodeString (encodeListWith encodeString secs) =
      some (secs, []) := by
    have h := decodeListWith_encode decodeString_encodeString secs []
    simpa using h
  simp [deserializeSession, decodeNat_encodeNat, decodeOptNat_encodeOptNat,
    decodeString_encodeString, decodeListWith_encode decodeAttr_encodeAttr,
    hlast]

theorem serializeSession_length_pos (s : ClientSession) :
    0 < (serializeSession s).length := by
  simp [serializeSession, encodeNat]

theorem charVal_byteChar : ∀ k < 16, charVal (byteChar k) = some k := by
  decide

theorem b64decodeChars_encodeBytes (bytes : List Nat)
    (h : ∀ b ∈ bytes, b < 256) :
    b64decodeChars (b64encodeBytes bytes) = some bytes := by
  induction bytes with
  | nil => rfl
  | cons b rest ih =>
    have hb : b < 256 := h b (List.mem_cons_self _ _)
    have h1 : b / 16 < 16 := Nat.div_lt_of_lt_mul (by omega)
    have h2 : b % 16 < 16 := Nat.mod_lt _ (by norm_num)
    have hrest := ih (fun x hx => h x (List.mem_cons_of_mem _ hx))
    have hrep : b64encodeBytes (b :: rest) =
        byteChar (b / 16) :: byteChar (b % 16) :: b64encodeBytes rest := by
      simp [b64encodeBytes]
    rw [hrep]
    simp [b64decodeChars, charVal_byteChar _ h1, charVal_byteChar _ h2, hrest,
      Nat.div_add_mod]

theorem b64decode_b64encode (bytes : List Nat) (h : ∀ b ∈ bytes, b < 256) :
    b64decode (b64encode bytes) = some bytes :=
  b64decodeChars_encodeBytes bytes h

theorem lookupA_removeA {κ α : Type} [DecidableEq κ] (m : List (κ × α))
    (k : κ) : lookupA (removeA m k) k = none := by
  induction m with
  | nil => rfl
  | cons kv rest ih =>
    rw [removeA, List.filter_cons]
    by_cases hk : kv.1 = k
    · rw [if_neg (by simp [hk])]
      exact ih
    · rw [if_pos (by simp [hk])]
      rw [lookupA, if_neg hk]
      exact ih

/-! ## Theorems for the login session cache -/

theorem remove_decrypt_fn (c : LoginSessionCache) (t : String) :
    (c.remove t).decrypt_fn = c.decrypt_fn := rfl

theorem cache_session_decrypt_fn (c : LoginSessionCache) (t : String)
    (s : ClientSession) (now : Option Nat) :
    (c.cache_session t s now).decrypt_fn = c.decrypt_fn := by
  cases now <;> rfl

/-- C1: when the cipher pair round-trips on the serialized record (with its
16-byte tag and byte-valued output, as the source types guarantee), encoding
produces the base64 token of ciphertext plus tag and caches the record built
with `start_time = now`; decoding that token with the same key returns that
exact record — both on the cache fast path and, after the token is removed
from the cache, on the full base64/decrypt/deserialize slow path. -/
theorem c1_encode_decode (c : LoginSessionCache) (sid : String)
    (attributes : List (String × String)) (secrets : List String)
    (key : List Nat) (expires_in : Option Nat) (now : Nat) (ct tag : List Nat)
    (henc : c.encrypt_fn key
      (serializeSession ⟨now, expires_in, sid, attributes, secrets⟩) =
      .ok (ct, tag))
    (hdec : c.decrypt_fn key ct tag =
      .ok (serializeSession ⟨now, expires_in, sid, attributes, secrets⟩))
    (htag : tag.length = TAG_SIZE)
    (hct : ct.length =
      (serializeSession ⟨now, expires_in, sid, attributes, secrets⟩).length)
    (hbytes : ∀ b ∈ ct ++ tag, b < 256) :
    (c.encode sid attributes secrets key expires_in (some now) =
      .ok (b64encode (ct ++ tag),
        c.cache_session (b64encode (ct ++ tag))
          ⟨now, expires_in, sid, attributes, secrets⟩ (some now))) ∧
    (∀ clock,
      (c.cache_session (b64encode (ct ++ tag))
          ⟨now, expires_in, sid, attributes, secrets⟩ (some now)).decode
        (b64encode (ct ++ tag)) key clock =
      .ok (⟨now, expires_in, sid, attributes, secrets⟩,
        c.cache_session (b64encode (ct ++ tag))
          ⟨now, expires_in, sid, attributes, secrets⟩ (some now))) ∧
    (∀ clock, ∃ cAfter,
      ((c.cache_session (b64encode (ct ++ tag))
          ⟨now, expires_in, sid, attributes, secrets⟩ (some now)).remove
        (b64encode (ct ++ tag))).decode (b64encode (ct ++ tag)) key clock =
      .ok (⟨now, expires_in, sid, attributes, secrets⟩, cAfter)) := by
  refine ⟨?_, ?_, ?_⟩
  · simp only [LoginSessionCache.encode, henc]
  · intro clock
    simp only [LoginSessionCache.decode, LoginSessionCache.lookup_session,
      LoginSessionCache.cache_session, lookupA_insertA_self]
  · intro clock
    have hmiss : ((c.cache_session (b64encode (ct ++ tag))
        ⟨now, expires_in, sid, attributes, secrets⟩ (some now)).remove
        (b64encode (ct ++ tag))).lookup_session (b64encode (ct ++ tag)) =
        none := by
      simp only [LoginSessionCache.lookup_session, LoginSessionCache.remove,
        lookupA_removeA]
    have hb64 := b64decode_b64encode (ct ++ tag) hbytes
    have hpos := serializeSession_length_pos
      ⟨now, expires_in, sid, attributes, secrets⟩
    have hlennot : ¬ ((ct ++ tag).length ≤ TAG_SIZE) := by
      rw [List.length_append, htag]
      rw [TAG_SIZE] at htag ⊢
      omega
    have hsplit : (ct ++ tag).length - TAG_SIZE = ct.length := by
      rw [List.length_append, htag]
      omega
    refine ⟨((c.cache_session (b64encode (ct ++ tag))
        ⟨now, expires_in, sid, attributes, secrets⟩ (some now)).remove
          (b64encode (ct ++ tag))).cache_session (b64encode (ct ++ tag))
        ⟨now, expires_in, sid, attributes, secrets⟩ clock, ?_⟩
    simp only [LoginSessionCache.decode, hmiss, hb64, if_neg hlennot, hsplit,
      List.take_left, List.drop_left, remove_decrypt_fn,
      cache_session_decrypt_fn, hdec, deserializeSession_serializeSession]

/-- C1 witness: the round trip through the identity cipher of the source's
unit test, at the record with id "", no attributes, no secrets, no lifetime,
encoded at clock reading 5. -/
theorem c1_encode_decode_witness :
    testCache.encode "" [] [] [] none (some 5) =
      .ok (b64encode
          (serializeSession ⟨5, none, "", [], []⟩ ++ List.replicate 16 0),
        testCache.cache_session
          (b64encode
            (serializeSession ⟨5, none, "", [], []⟩ ++ List.replicate 16 0))
          ⟨5, none, "", [], []⟩ (some 5)) :=
  (c1_encode_decode testCache "" [] [] [] none 5
      (serializeSession ⟨5, none, "", [], []⟩) (List.replicate 16 0)
      rfl rfl rfl rfl (by decide)).1

/-- C3, counterexample: a token whose bytes base64-decode and decrypt fine
but fail to deserialize makes `decode` return `Error::Custom`, not
`ApiInvalidCredentials` as the claim requires. -/
theorem c3_counterexample :
    testCache.decode badToken [] none =
      .error (.Custom "Unable to deserializing client session") := by
  rfl

/-- C3, amended: on the decode slow path, a malformed base64 token and a
too-short token surface as `ApiInvalidCredentials`; a decryption failure is
propagated exactly as the error the decrypt function returned; and a
deserialization failure after successful decryption surfaces as the distinct
`Error::Custom` kind, not as `ApiInvalidCredentials`. -/
theorem c3_decode_error_kinds (c : LoginSessionCache) (token : String)
    (key : List Nat) (now : Option Nat) (bytes pt : List Nat) (e : KrillError)
    (hmiss : c.lookup_session token = none) :
    (b64decode token = none →
      c.decode token key now =
        .error (.ApiInvalidCredentials "Invalid bearer token")) ∧
    (b64decode token = some bytes → bytes.length ≤ TAG_SIZE →
      c.decode token key now =
        .error (.ApiInvalidCredentials
          "Invalid bearer token: token is too short")) ∧
    (b64decode token = some bytes → TAG_SIZE < bytes.length →
      c.decrypt_fn key (bytes.take (bytes.length - TAG_SIZE))
        (bytes.drop (bytes.length - TAG_SIZE)) = .error e →
      c.decode token key now = .error e) ∧
    (b64decode token = some bytes → TAG_SIZE < bytes.length →
      c.decrypt_fn key (bytes.take (bytes.length - TAG_SIZE))
        (bytes.drop (bytes.length - TAG_SIZE)) = .ok pt →
      deserializeSession pt = none →
      c.decode token key now =
        .error (.Custom "Unable to deserializing client session")) := by
  refine ⟨?_, ?_, ?_, ?_⟩
  · intro h1
    simp only [LoginSessionCache.decode, hmiss, h1]
  · intro h1 h2
    simp only [LoginSessionCache.decode, hmiss, h1, if_pos h2]
  · intro h1 h2 h3
    simp only [LoginSessionCache.decode, hmiss, h1,
      if_neg (Nat.not_le_of_lt h2), h3]
  · intro h1 h2 h3 h4
    simp only [LoginSessionCache.decode, hmiss, h1,
      if_neg (Nat.not_le_of_lt h2), h3, h4]

/-- C3 witness: the deserialization-failure case of the amended statement at
the concrete bad token. -/
theorem c3_decode_error_kinds_witness :
    testCache.decode badToken [] none =
      .error (.Custom "Unable to deserializing client session") :=
  (c3_decode_error_kinds testCache badToken [] none (List.replicate 17 5)
      ((List.replicate 17 5).take 1) KrillError.SignerFailure rfl).2.2.2
    (b64decode_b64encode _ (by decide)) (by decide) rfl rfl

/-- C4, counterexample: `sweep` with a poisoned lock and an available wall
clock returns an error, so a poisoned lock is propagated to the caller and
the clock is not the only failure source. -/
theorem c4_counterexample :
    testCache.sweep true (some 0) =
      .error (.Custom "Unable to purge session cache") := by
  rfl

/-- C4, amended: `sweep` succeeds exactly when the write lock is not
poisoned and the wall clock is available; a poisoned lock is mapped to
`Error::Custom` and propagated (unlike the reads and the other writes of the
cache, which swallow it). -/
theorem c4_sweep_error_iff (c : LoginSessionCache) (lockPoisoned : Bool)
    (now : Option Nat) :
    (∃ c2, c.sweep lockPoisoned now = .ok c2) ↔
      lockPoisoned = false ∧ now.isSome := by
  cases lockPoisoned with
  | true => simp [LoginSessionCache.sweep]
  | false =>
    cases now with
    | none => simp [LoginSessionCache.sweep]
    | some t => simp [LoginSessionCache.sweep]

/-- C4 witness: the amended equivalence at the concrete test cache, lock
healthy and clock reading 3. -/
theorem c4_sweep_error_iff_witness :
    ∃ c2, testCache.sweep false (some 3) = .ok c2 :=
  (c4_sweep_error_iff testCache false (some 3)).mpr ⟨rfl, rfl⟩

end Krill
